import Mathlib

/-!
Verification of the Nonagon numerology core (`app.py`): digit-sum reduction,
date numerics, lenient frequency parsing, fixed-order sector projection and
top-archetype selection, shallowly embedded as executable Lean definitions.

Strings are modelled as Lean `String`/`List Char`; the embedding models the
Python string primitives (`str.isdigit`, `str.strip`, `int`) at their ASCII
behaviour, which covers the whole input domain the specification discusses.
A `Counter` is modelled as its total counting function `Nat → Nat` (absent
keys read as count 0), so `freq.get(n, 0)` is `freq n`.
-/

namespace Nonagon

/-- Sum of the base-10 digits of `n`; models the Python expression
`sum(int(d) for d in str(n))` used in the body of `sum_digits` and in
`compute_core_numbers` (for `n = 0` Python yields `0`, as here). -/
def digitSum (n : Nat) : Nat :=
  if h : n = 0 then 0
  else n % 10 + digitSum (n / 10)
termination_by n
decreasing_by exact Nat.div_lt_self (Nat.pos_of_ne_zero h) (by omega)

/-- The reduction loop of `sum_digits`: `while n > 9: n = sum(int(d) for d in str(n))`.
Total by well-founded recursion, since the digit sum of any `n > 9` is
strictly smaller than `n` (shown inline below, and again as the standalone
theorem `digitSum_lt_self`). -/
def reduceNat (n : Nat) : Nat :=
  if h : 9 < n then reduceNat (digitSum n)
  else n
termination_by n
decreasing_by
  have key : ∀ m : Nat, digitSum m ≤ m := by
    intro m
    induction m using Nat.strong_induction_on with
    | _ m ih =>
      by_cases h0 : m = 0
      · subst h0
        unfold digitSum
        simp
      · have hlt : m / 10 < m := Nat.div_lt_self (Nat.pos_of_ne_zero h0) (by omega)
        have h1 := ih _ hlt
        have h2 := Nat.div_add_mod m 10
        conv_lhs => unfold digitSum
        simp only [h0, dite_false]
        omega
  have h1 := key (n / 10)
  have h2 := Nat.div_add_mod n 10
  conv_lhs => unfold digitSum
  simp only [show ¬(n = 0) by omega, dite_false]
  omega

/-- `sum_digits` from `app.py`: take `abs(int(n))`, then repeatedly replace
the value by the sum of its base-10 digits while it exceeds 9. -/
def sum_digits (n : Int) : Nat :=
  reduceNat n.natAbs

/-- `compute_core_numbers` from `app.py`: `total = day + month + year`,
`personality = sum_digits(total)`,
`bridge_double = sum(int(d) for d in str(year)) + personality`,
`life_value = sum_digits(bridge_double)`; returns the triple. -/
def compute_core_numbers (day month year : Nat) : Nat × Nat × Nat :=
  let total : Nat := day + month + year
  let personality : Nat := sum_digits (total : Int)
  let bridge_double : Nat := digitSum year + personality
  let life_value : Nat := sum_digits (bridge_double : Int)
  (personality, bridge_double, life_value)

/-- `text.replace(".", ",")` from `parse_core_list`: '.' and ',' are accepted
as equivalent separators by normalising every '.' to ','. -/
def pyReplaceDotComma (s : List Char) : List Char :=
  s.map (fun c => if c = '.' then ',' else c)

/-- Python `str.split(",")`: note that splitting the empty string yields
`[""]`, never the empty list, and separators at the ends yield empty tokens. -/
def splitComma : List Char → List (List Char)
  | [] => [[]]
  | c :: cs =>
    if c = ',' then [] :: splitComma cs
    else
      match splitComma cs with
      | [] => [[c]]
      | t :: ts => (c :: t) :: ts

/-- The characters Python `str.strip()` removes, restricted to ASCII: space,
tab, newline, carriage return, vertical tab and form feed. (Python also
strips Unicode whitespace outside the ASCII range.) -/
def pyWhitespace (c : Char) : Bool :=
  c.isWhitespace || c = '\x0b' || c = '\x0c'

/-- Python `str.strip()`: drop whitespace from both ends. -/
def pyStrip (s : List Char) : List Char :=
  ((s.dropWhile pyWhitespace).reverse.dropWhile pyWhitespace).reverse

/-- The DECIMAL fragment of Python `str.isdigit()`: nonempty and consisting
solely of ASCII decimal digit characters. Python's `isdigit` accepts more —
non-decimal Unicode digits such as the superscript '²' — see
`pyIsDigitFull` below and claim C5, where that difference is the bug. On
tokens drawn from ASCII text the two coincide, so this is the right guard
for the value-level model `coreNums`. -/
def pyIsDigit (s : List Char) : Bool :=
  !s.isEmpty && s.all Char.isDigit

/-- The Latin-1 superscript digit characters ¹, ², ³. Python's
`str.isdigit()` accepts them, while `int()` rejects them: they are Unicode
digits (category No) but not decimal digits (category Nd). -/
def superscriptDigits : List Char := ['\xb9', '\xb2', '\xb3']

/-- Python `str.isdigit()` on the modelled alphabet (ASCII plus the Latin-1
superscript digits): true on nonempty strings of decimal or superscript
digits. This under-approximates Python's full Unicode digit property —
every string accepted here is accepted by CPython's `isdigit` — which is
the sound direction for exhibiting a failing input. -/
def pyIsDigitFull (s : List Char) : Bool :=
  !s.isEmpty && s.all (fun c => c.isDigit || superscriptDigits.contains c)

/-- The numeric value `int(token)` computes on a string of decimal digits
(48 is the code point of the digit 0). -/
def strToNat (s : List Char) : Nat :=
  s.foldl (fun acc c => 10 * acc + (c.toNat - 48)) 0

/-- `(text or "")` from `parse_core_list`: a null (`None`) input is treated
as the empty string. -/
def textOrEmpty : Option String → List Char
  | none => []
  | some s => s.data

/-- The token list `parse_core_list` iterates over: normalise separators,
then split on ','. -/
def pyTokens (text : Option String) : List (List Char) :=
  splitComma (pyReplaceDotComma (textOrEmpty text))

/-- The `nums` list accumulated by the loop of `parse_core_list`: a token is
kept when, after stripping, it satisfies `isdigit()` and its integer value
lies in [1,9]; every other token is silently discarded. -/
def coreNums (text : Option String) : List Nat :=
  (pyTokens text).filterMap (fun rawTok =>
    let token := pyStrip rawTok
    if pyIsDigit token then
      let n := strToNat token
      if 1 ≤ n ∧ n ≤ 9 then some n else none
    else none)

/-- `parse_core_list` from `app.py`, as the counting function of the
returned `Counter(nums)`: `parse_core_list text n` is the multiplicity of
`n`, with absent keys read as 0. -/
def parse_core_list (text : Option String) : Nat → Nat :=
  fun n => (coreNums text).count n

/-- Python `int(token)` as a fallible conversion: succeeds with the numeric
value on nonempty strings of DECIMAL digits and raises (`none`) otherwise.
On the modelled alphabet this is exact for every token that can reach the
`int` call: the only extra strings `int` accepts (signs, surrounding
whitespace, underscores between digits) contain characters that fail the
preceding `isdigit()` guard. In particular `int` rejects the superscript
digits that `isdigit()` accepts. -/
def strToInt? (s : List Char) : Option Nat :=
  if !s.isEmpty && s.all Char.isDigit then some (strToNat s) else none

/-- The loop of `parse_core_list` with `int(token)` modelled as fallible
and the `token.isdigit()` guard modelled on the full alphabet
(`pyIsDigitFull`): a `none` result models an uncaught `ValueError`
escaping the loop — `parse_core_list` has no try/except. -/
def coreNumsU : List (List Char) → Option (List Nat)
  | [] => some []
  | rawTok :: rest =>
    let token := pyStrip rawTok
    if pyIsDigitFull token then
      match strToInt? token with
      | none => none
      | some n =>
        match coreNumsU rest with
        | none => none
        | some ns => some ((if 1 ≤ n ∧ n ≤ 9 then [n] else []) ++ ns)
    else coreNumsU rest

/-- The failing input for C5: the single character '²' (U+00B2,
superscript two). -/
def supTwo : String := "\xb2"

/-- `SECTOR_ORDER` from `app.py`. -/
def SECTOR_ORDER : List Nat := [1, 3, 4, 9, 5, 8, 2, 7, 6]

/-- `segments_by_order` from `app.py`:
`[(n, freq.get(n, 0)) for n in SECTOR_ORDER]`. -/
def segments_by_order (freq : Nat → Nat) : List (Nat × Nat) :=
  SECTOR_ORDER.map (fun n => (n, freq n))

/-- The order in which Python's
`sorted(..., key=lambda x: (x[0], -x[1]), reverse=True)` emits two
`(count, sector)` pairs: `a` comes no later than `b` exactly when
`key a ≥ key b` in the lexicographic order on `(count, -sector)`. -/
def pyKeyGE (a b : Nat × Nat) : Prop :=
  b.1 < a.1 ∨ (a.1 = b.1 ∧ a.2 ≤ b.2)

instance decPyKeyGE : DecidableRel pyKeyGE :=
  fun _ _ => inferInstanceAs (Decidable (_ ∨ _))

instance totalPyKeyGE : IsTotal (Nat × Nat) pyKeyGE :=
  ⟨by intro a b; unfold pyKeyGE; omega⟩

instance transPyKeyGE : IsTrans (Nat × Nat) pyKeyGE :=
  ⟨by intro a b c; unfold pyKeyGE; omega⟩

instance antisymmPyKeyGE : IsAntisymm (Nat × Nat) pyKeyGE := by
  constructor
  intro a b h1 h2
  unfold pyKeyGE at h1 h2
  obtain ⟨a1, a2⟩ := a
  obtain ⟨b1, b2⟩ := b
  simp only at h1 h2
  simp only [Prod.mk.injEq]
  omega

/-- The inline expression of `app.py` line 165:
`sorted([(cnt, n) for n, cnt in freq.items()], key=lambda x: (x[0], -x[1]),
reverse=True)[:3]`. Python's sort is stable, so it is a stable merge sort by
the order `pyKeyGE`. `items` stands for `freq.items()` in whatever order the
`Counter` yields it; the theorems below hold for every such order. -/
def top (items : List (Nat × Nat)) : List (Nat × Nat) :=
  ((items.map (fun p => (p.2, p.1))).mergeSort (fun a b => decide (pyKeyGE a b))).take 3

/-- `arketipe = [str(n) for cnt, n in top]` from `app.py` line 166, with the
sectors kept as numbers. This is the `topThree` selection of the claims. -/
def arketipe (items : List (Nat × Nat)) : List Nat :=
  (top items).map (fun p => p.2)

/-- On `(sector, count)` pairs: count descending, ties by LOWER sector
number first. This is the order the code actually implements. -/
def countDescSectorAsc (a b : Nat × Nat) : Prop :=
  b.2 < a.2 ∨ (a.2 = b.2 ∧ a.1 ≤ b.1)

/-- On `(sector, count)` pairs: count descending, ties by HIGHER sector
number first. This is the tie-break order claim C1 asserts. -/
def countDescSectorDesc (a b : Nat × Nat) : Prop :=
  b.2 < a.2 ∨ (a.2 = b.2 ∧ b.1 ≤ a.1)

instance decCountDescSectorAsc : DecidableRel countDescSectorAsc :=
  fun _ _ => inferInstanceAs (Decidable (_ ∨ _))

instance decCountDescSectorDesc : DecidableRel countDescSectorDesc :=
  fun _ _ => inferInstanceAs (Decidable (_ ∨ _))

instance totalCountDescSectorAsc : IsTotal (Nat × Nat) countDescSectorAsc :=
  ⟨by intro a b; unfold countDescSectorAsc; omega⟩

instance transCountDescSectorAsc : IsTrans (Nat × Nat) countDescSectorAsc :=
  ⟨by intro a b c; unfold countDescSectorAsc; omega⟩

/-- Claim-side (C7): rebuild a mapping from a `(sector, count)` pair list;
since the projected pairs carry nine distinct sectors, reading the unique
matching pair is the same as summing all matching pairs, which is what we
do here (absent keys read as 0). -/
def reaggregate (ps : List (Nat × Nat)) : Nat → Nat :=
  fun n => ((ps.filter (fun p => p.1 == n)).map Prod.snd).sum

/-- Claim-side (C7): the sum of a multiset's values, for a multiset
supported on the sectors 1..9. -/
def totalCount (freq : Nat → Nat) : Nat :=
  ((List.range 9).map (fun i => freq (i + 1))).sum

/-- Claim-side (C8): the input with every ',' replaced by '.' (the `t'` of
the claim). -/
def replaceCommaDot (s : String) : String :=
  ⟨s.data.map (fun c => if c = ',' then '.' else c)⟩

/-- The spec's example input with malformed tokens: `"0,10,-3,abc, 5 ,"`. -/
def exMixed : String := "0,10,-3,abc, 5 ,"

/-- The spec's well-formed example input: `"1,7,1,7,7,5,5,2"`. -/
def exList : String := "1,7,1,7,7,5,5,2"

/-- The spec's well-formed example input with '.' separators. -/
def exListDots : String := "1.7.1.7.7.5.5.2"

/-- A concrete multiset used to witness the C7 round-trip: sector 5 twice. -/
def exFreq : Nat → Nat :=
  fun n => if n = 5 then 2 else 0

/-! ### General lemmas about the digit reducer -/

theorem digitSum_zero : digitSum 0 = 0 := by
  unfold digitSum
  rfl

theorem digitSum_of_ne_zero {n : Nat} (h : n ≠ 0) :
    digitSum n = n % 10 + digitSum (n / 10) := by
  conv_lhs => unfold digitSum
  simp [h]

theorem digitSum_le_self (n : Nat) : digitSum n ≤ n := by
  induction n using Nat.strong_induction_on with
  | _ n ih =>
    by_cases h : n = 0
    · subst h
      simp [digitSum_zero]
    · rw [digitSum_of_ne_zero h]
      have hlt : n / 10 < n := Nat.div_lt_self (Nat.pos_of_ne_zero h) (by omega)
      have h1 : digitSum (n / 10) ≤ n / 10 := ih _ hlt
      omega

theorem digitSum_lt_self {n : Nat} (h : 9 < n) : digitSum n < n := by
  rw [digitSum_of_ne_zero (by omega)]
  have h1 : digitSum (n / 10) ≤ n / 10 := digitSum_le_self (n / 10)
  omega

theorem digitSum_mod_nine (n : Nat) : digitSum n % 9 = n % 9 := by
  induction n using Nat.strong_induction_on with
  | _ n ih =>
    by_cases h : n = 0
    · subst h
      simp [digitSum_zero]
    · rw [digitSum_of_ne_zero h]
      have hlt : n / 10 < n := Nat.div_lt_self (Nat.pos_of_ne_zero h) (by omega)
      have h1 : digitSum (n / 10) % 9 = (n / 10) % 9 := ih _ hlt
      omega

theorem digitSum_pos {n : Nat} (h : 0 < n) : 0 < digitSum n := by
  induction n using Nat.strong_induction_on with
  | _ n ih =>
    rw [digitSum_of_ne_zero (by omega)]
    by_cases hr : n % 10 = 0
    · have hq : 0 < n / 10 := by omega
      have := ih (n / 10) (Nat.div_lt_self h (by omega)) hq
      omega
    · omega

theorem reduceNat_of_le {n : Nat} (h : n ≤ 9) : reduceNat n = n := by
  unfold reduceNat
  simp [Nat.not_lt.mpr h]

theorem reduceNat_of_gt {n : Nat} (h : 9 < n) : reduceNat n = reduceNat (digitSum n) := by
  conv_lhs => unfold reduceNat
  simp [h]

theorem reduceNat_le_nine (n : Nat) : reduceNat n ≤ 9 := by
  induction n using Nat.strong_induction_on with
  | _ n ih =>
    by_cases h : 9 < n
    · rw [reduceNat_of_gt h]
      exact ih _ (digitSum_lt_self h)
    · rw [reduceNat_of_le (by omega)]
      omega

theorem reduceNat_mod_nine (n : Nat) : reduceNat n % 9 = n % 9 := by
  induction n using Nat.strong_induction_on with
  | _ n ih =>
    by_cases h : 9 < n
    · rw [reduceNat_of_gt h, ih _ (digitSum_lt_self h)]
      exact digitSum_mod_nine n
    · rw [reduceNat_of_le (by omega)]

theorem reduceNat_pos {n : Nat} (h : 0 < n) : 0 < reduceNat n := by
  induction n using Nat.strong_induction_on with
  | _ n ih =>
    by_cases hgt : 9 < n
    · rw [reduceNat_of_gt hgt]
      exact ih _ (digitSum_lt_self hgt) (digitSum_pos (by omega))
    · rw [reduceNat_of_le (by omega)]
      exact h

/-! ### General lemmas about the top-3 selection -/

theorem insertionSort_swap (items : List (Nat × Nat)) :
    (items.map (fun p => (p.2, p.1))).insertionSort pyKeyGE
      = (items.insertionSort countDescSectorAsc).map (fun p => (p.2, p.1)) := by
  apply List.eq_of_perm_of_sorted (r := pyKeyGE)
  · exact (List.perm_insertionSort pyKeyGE _).trans
      ((List.perm_insertionSort countDescSectorAsc items).map _).symm
  · exact List.sorted_insertionSort pyKeyGE _
  · show List.Pairwise pyKeyGE _
    rw [List.pairwise_map]
    apply List.Pairwise.imp _ (List.sorted_insertionSort countDescSectorAsc items)
    intro a b h
    unfold countDescSectorAsc at h
    unfold pyKeyGE
    simp only
    omega

theorem arketipe_eq_sorted (items : List (Nat × Nat)) :
    arketipe items = ((items.insertionSort countDescSectorAsc).take 3).map Prod.fst := by
  unfold arketipe top
  rw [List.mergeSort_eq_insertionSort, insertionSort_swap, ← List.map_take, List.map_map]
  rfl

/-! ### General lemmas about the parser and the projection -/

theorem mem_coreNums {t : Option String} {x : Nat} (hx : x ∈ coreNums t) :
    1 ≤ x ∧ x ≤ 9 := by
  unfold coreNums at hx
  rw [List.mem_filterMap] at hx
  obtain ⟨tok, -, htok⟩ := hx
  simp only at htok
  split_ifs at htok with hd hr
  · rw [Option.some.injEq] at htok
    omega

theorem mem_SECTOR_ORDER (n : Nat) : n ∈ SECTOR_ORDER ↔ 1 ≤ n ∧ n ≤ 9 := by
  unfold SECTOR_ORDER
  simp only [List.mem_cons, List.not_mem_nil, or_false]
  omega

theorem reaggregate_segments (freq : Nat → Nat) (n : Nat) :
    reaggregate (segments_by_order freq) n = if 1 ≤ n ∧ n ≤ 9 then freq n else 0 := by
  by_cases h : 1 ≤ n ∧ n ≤ 9
  · rw [if_pos h]
    obtain ⟨h1, h2⟩ := h
    interval_cases n <;> simp [reaggregate, segments_by_order, SECTOR_ORDER]
  · rw [if_neg h]
    have hnil : (segments_by_order freq).filter (fun p => p.1 == n) = [] := by
      rw [List.filter_eq_nil_iff]
      intro p hp
      simp only [segments_by_order, SECTOR_ORDER, List.map_cons, List.map_nil,
        List.mem_cons, List.not_mem_nil, or_false] at hp
      rcases hp with h1 | h1 | h1 | h1 | h1 | h1 | h1 | h1 | h1 <;>
        (subst h1; simp only [beq_iff_eq]; omega)
    unfold reaggregate
    rw [hnil]
    rfl

theorem segments_sum (freq : Nat → Nat) :
    ((segments_by_order freq).map Prod.snd).sum = totalCount freq := by
  have h2 : List.range 9 = [0, 1, 2, 3, 4, 5, 6, 7, 8] := rfl
  unfold totalCount
  rw [h2]
  simp only [segments_by_order, SECTOR_ORDER, List.map_cons, List.map_nil, List.sum_cons,
    List.sum_nil]
  norm_num
  omega

/-! ### Claim theorems -/

/-- C2: for every date `(day, month, year)`, `compute_core_numbers` returns
`(Personality, BridgeValue, LifeValue)` with `Personality = reduce(day +
month + year)`, `BridgeValue = digitSum year + Personality` kept unreduced,
and `LifeValue = reduce BridgeValue`; `Personality` and `LifeValue` are
always single digits in [0,9] (they are naturals, so ≥ 0 holds by type);
in particular the date (17, 8, 1990) yields `(8, 27, 9)`. -/
theorem compute_core_numbers_spec :
    (∀ day month year : Nat,
        compute_core_numbers day month year =
          (sum_digits ((day + month + year : Nat) : Int),
           digitSum year + sum_digits ((day + month + year : Nat) : Int),
           sum_digits ((digitSum year
             + sum_digits ((day + month + year : Nat) : Int) : Nat) : Int)) ∧
        (compute_core_numbers day month year).1 ≤ 9 ∧
        (compute_core_numbers day month year).2.2 ≤ 9) ∧
    compute_core_numbers 17 8 1990 = (8, 27, 9) := by
  constructor
  · intro day month year
    exact ⟨rfl, reduceNat_le_nine _, reduceNat_le_nine _⟩
  · unfold compute_core_numbers sum_digits
    norm_num
    simp [reduceNat, digitSum]

/-- C6: for every integer `n`, `sum_digits n` equals `sum_digits` of the
absolute value of `n` and lies in [0,9] (≥ 0 by type); and whenever
`0 ≤ n ≤ 9`, `sum_digits n = n`. -/
theorem sum_digits_abs_range :
    ∀ n : Int,
      (sum_digits n = sum_digits |n| ∧ sum_digits n ≤ 9) ∧
      (0 ≤ n → n ≤ 9 → (sum_digits n : Int) = n) := by
  intro n
  refine ⟨⟨?_, reduceNat_le_nine _⟩, ?_⟩
  · unfold sum_digits
    rw [Int.natAbs_abs]
  · intro h0 h9
    unfold sum_digits
    have hn : n.natAbs ≤ 9 := by omega
    rw [reduceNat_of_le hn]
    omega

/-- Witness for C6 at `n = 7`, discharging the hypotheses `0 ≤ 7 ≤ 9`. -/
theorem sum_digits_abs_range_witness :
    (0 : Int) ≤ 7 ∧ (7 : Int) ≤ 9 ∧
    (sum_digits 7 = sum_digits |7| ∧ sum_digits 7 ≤ 9) ∧
    (sum_digits (7 : Int) : Int) = 7 :=
  ⟨by decide, by decide, (sum_digits_abs_range 7).1,
    (sum_digits_abs_range 7).2 (by decide) (by decide)⟩

/-- C9: the reduction loop terminates on every input, and is definable by
well-founded recursion (`reduceNat` above is exactly that definition),
because for every value greater than 9 the sum of its base-10 digits is
strictly smaller than the value; at such values the loop makes exactly the
step `reduceNat n = reduceNat (digitSum n)`. -/
theorem digitSum_decreases :
    ∀ n : Nat, 9 < n → digitSum n < n ∧ reduceNat n = reduceNat (digitSum n) := by
  intro n h
  exact ⟨digitSum_lt_self h, reduceNat_of_gt h⟩

/-- Witness for C9 at `n = 10`, discharging the hypothesis `9 < 10`. -/
theorem digitSum_decreases_witness :
    9 < 10 ∧ digitSum 10 < 10 ∧ reduceNat 10 = reduceNat (digitSum 10) :=
  ⟨by omega, (digitSum_decreases 10 (by omega)).1, (digitSum_decreases 10 (by omega)).2⟩

/-- C10 (implicit): for every integer `n ≥ 1`, `sum_digits n` lies in [1,9]
and is congruent to `n` modulo 9 (the digital root); consequently, for every
date with `day, month, year ≥ 1`, both `Personality` and `LifeValue` are in
[1,9] — never 0. -/
theorem reduce_digital_root :
    (∀ n : Int, 1 ≤ n →
        1 ≤ sum_digits n ∧ sum_digits n ≤ 9 ∧ (sum_digits n : Int) % 9 = n % 9) ∧
    (∀ day month year : Nat, 1 ≤ day → 1 ≤ month → 1 ≤ year →
        1 ≤ (compute_core_numbers day month year).1 ∧
        (compute_core_numbers day month year).1 ≤ 9 ∧
        1 ≤ (compute_core_numbers day month year).2.2 ∧
        (compute_core_numbers day month year).2.2 ≤ 9) := by
  have key : ∀ m : Nat, 1 ≤ m →
      1 ≤ reduceNat m ∧ reduceNat m ≤ 9 ∧ reduceNat m % 9 = m % 9 :=
    fun m hm => ⟨reduceNat_pos (by omega), reduceNat_le_nine m, reduceNat_mod_nine m⟩
  constructor
  · intro n hn
    unfold sum_digits
    obtain ⟨ha, hb, hc⟩ := key n.natAbs (by omega)
    exact ⟨ha, hb, by omega⟩
  · intro day month year hd hm hy
    unfold compute_core_numbers sum_digits
    simp only [Int.natAbs_ofNat]
    obtain ⟨pa, pb, -⟩ := key (day + month + year) (by omega)
    obtain ⟨la, lb, -⟩ := key (digitSum year + reduceNat (day + month + year)) (by omega)
    exact ⟨pa, pb, la, lb⟩

/-- Witness for C10 at `n = 10` and the date (17, 8, 1990), discharging the
positivity hypotheses. -/
theorem reduce_digital_root_witness :
    ((1 : Int) ≤ 10 ∧ 1 ≤ sum_digits 10 ∧ sum_digits 10 ≤ 9 ∧
      (sum_digits (10 : Int) : Int) % 9 = 10 % 9) ∧
    (1 ≤ (compute_core_numbers 17 8 1990).1 ∧
      (compute_core_numbers 17 8 1990).1 ≤ 9 ∧
      1 ≤ (compute_core_numbers 17 8 1990).2.2 ∧
      (compute_core_numbers 17 8 1990).2.2 ≤ 9) :=
  ⟨⟨by decide, reduce_digital_root.1 10 (by decide)⟩,
    reduce_digital_root.2 17 8 1990 (by decide) (by decide) (by decide)⟩

/-- C1 (amended): for every enumeration `items` of the `(sector, count)`
entries present in `freq`, the top-3 selection equals the entries sorted
primarily by count descending and, among equal counts, by LOWER sector
number first, truncated to at most the first 3 sectors; at most 3 sectors
are returned, and the empty multiset yields the empty result. -/
theorem topThree_count_desc_sector_asc :
    ∀ items : List (Nat × Nat),
      arketipe items = ((items.insertionSort countDescSectorAsc).take 3).map Prod.fst ∧
      (arketipe items).length ≤ 3 ∧
      arketipe ([] : List (Nat × Nat)) = [] := by
  intro items
  refine ⟨arketipe_eq_sorted items, ?_, ?_⟩
  · rw [arketipe_eq_sorted items, List.length_map]
    have := List.length_take_le 3 (items.insertionSort countDescSectorAsc)
    omega
  · rw [arketipe_eq_sorted]
    rfl

/-- C1 counterexample: for the multiset with entries {5: 2, 7: 2} the code
returns [5, 7] — among equal counts the LOWER sector number comes first —
while the ordering asserted by the claim (higher sector number first)
yields [7, 5]. -/
theorem topThree_tiebreak_counterexample :
    arketipe [(5, 2), (7, 2)] = [5, 7] ∧
    ((([(5, 2), (7, 2)] : List (Nat × Nat)).insertionSort
        countDescSectorDesc).take 3).map Prod.fst = [7, 5] ∧
    arketipe [(5, 2), (7, 2)] ≠
      ((([(5, 2), (7, 2)] : List (Nat × Nat)).insertionSort
          countDescSectorDesc).take 3).map Prod.fst := by
  have h5 : arketipe [(5, 2), (7, 2)] = [5, 7] := by
    rw [arketipe_eq_sorted]
    decide
  refine ⟨h5, by decide, ?_⟩
  rw [h5]
  decide

/-- C3: for every multiset `freq`, the projection returns exactly 9 pairs,
one per sector, in the fixed order [1, 3, 4, 9, 5, 8, 2, 7, 6], each pair
carrying `freq`'s count for that sector (0 when absent, by the counting-
function model of a `Counter`). -/
theorem segments_fixed_order :
    ∀ freq : Nat → Nat,
      (segments_by_order freq).length = 9 ∧
      (segments_by_order freq).map Prod.fst = [1, 3, 4, 9, 5, 8, 2, 7, 6] ∧
      ∀ p ∈ segments_by_order freq, p.2 = freq p.1 := by
  intro freq
  refine ⟨rfl, rfl, ?_⟩
  intro p hp
  simp only [segments_by_order, SECTOR_ORDER, List.map_cons, List.map_nil,
    List.mem_cons, List.not_mem_nil, or_false] at hp
  rcases hp with h | h | h | h | h | h | h | h | h <;> (subst h; rfl)

/-- C7: for every multiset supported on sectors 1..9, re-aggregating the 9
projected pairs reproduces the multiset pointwise (absent keys read as 0),
the 9 projected counts sum to the multiset's total, and the projection of
the empty multiset is all zeros. -/
theorem project_roundtrip :
    ∀ freq : Nat → Nat, (∀ n, freq n ≠ 0 → 1 ≤ n ∧ n ≤ 9) →
      (∀ n, reaggregate (segments_by_order freq) n = freq n) ∧
      ((segments_by_order freq).map Prod.snd).sum = totalCount freq ∧
      (segments_by_order (fun _ => 0)).map Prod.snd = [0, 0, 0, 0, 0, 0, 0, 0, 0] := by
  intro freq hsupp
  refine ⟨?_, segments_sum freq, rfl⟩
  intro n
  rw [reaggregate_segments]
  by_cases h : 1 ≤ n ∧ n ≤ 9
  · rw [if_pos h]
  · rw [if_neg h]
    rcases Nat.eq_zero_or_pos (freq n) with h0 | hpos
    · exact h0.symm
    · exact absurd (hsupp n (by omega)) h

/-- Witness for C7 at the multiset {5: 2}, discharging the support
hypothesis. -/
theorem project_roundtrip_witness :
    (∀ n, exFreq n ≠ 0 → 1 ≤ n ∧ n ≤ 9) ∧
    (reaggregate (segments_by_order exFreq) 5 = exFreq 5 ∧
      ((segments_by_order exFreq).map Prod.snd).sum = totalCount exFreq) := by
  have hsupp : ∀ n, exFreq n ≠ 0 → 1 ≤ n ∧ n ≤ 9 := by
    intro n hn
    unfold exFreq at hn
    by_cases h : n = 5
    · omega
    · rw [if_neg h] at hn
      omega
  exact ⟨hsupp, (project_roundtrip exFreq hsupp).1 5, (project_roundtrip exFreq hsupp).2.1⟩

/-- C4: the parser keeps only tokens that are wholly decimal digits with
value in [1,9] (so any nonzero count sits at a sector in [1,9]); the
example `"0,10,-3,abc, 5 ,"` yields exactly {5: 1}, and
`"1,7,1,7,7,5,5,2"` yields counts {1: 2, 7: 3, 5: 2, 2: 1}, all other
sectors 0. -/
theorem parse_keeps_only_valid :
    (∀ t : Option String, ∀ n : Nat, parse_core_list t n ≠ 0 → 1 ≤ n ∧ n ≤ 9) ∧
    (∀ n : Nat, parse_core_list (some exMixed) n = if n = 5 then 1 else 0) ∧
    (∀ n : Nat, parse_core_list (some exList) n =
      if n = 1 then 2 else if n = 7 then 3 else if n = 5 then 2
      else if n = 2 then 1 else 0) := by
  refine ⟨?_, ?_, ?_⟩
  · intro t n h
    have hmem : n ∈ coreNums t := by
      by_contra hmem
      exact h (List.count_eq_zero.mpr hmem)
    exact mem_coreNums hmem
  · intro n
    by_cases h : n = 5
    · subst h
      decide
    · rw [if_neg h]
      show (coreNums (some exMixed)).count n = 0
      have hc : coreNums (some exMixed) = [5] := by decide
      rw [hc]
      exact List.count_eq_zero.mpr (by simp [h])
  · intro n
    by_cases h1 : n = 1
    · subst h1
      decide
    by_cases h7 : n = 7
    · subst h7
      decide
    by_cases h5 : n = 5
    · subst h5
      decide
    by_cases h2 : n = 2
    · subst h2
      decide
    rw [if_neg h1, if_neg h7, if_neg h5, if_neg h2]
    show (coreNums (some exList)).count n = 0
    have hc : coreNums (some exList) = [1, 7, 1, 7, 7, 5, 5, 2] := by rfl
    rw [hc]
    exact List.count_eq_zero.mpr (by simp [h1, h7, h5, h2])

/-- Witness for C4 at the input `"1,7,1,7,7,5,5,2"` and sector 5,
discharging the nonzero-count hypothesis. -/
theorem parse_keeps_only_valid_witness :
    parse_core_list (some exList) 5 ≠ 0 ∧ 1 ≤ 5 ∧ 5 ≤ 9 :=
  ⟨by decide, parse_keeps_only_valid.1 (some exList) 5 (by decide)⟩

/-- C5: the claim that `parse_core_list` is total and never raises for
every input string is wrong on the code: the input "²" (U+00B2) is a
single token which passes the `token.isdigit()` guard — Python's `isdigit`
accepts non-decimal Unicode digits — yet `int(token)` rejects it, raising
a `ValueError` that nothing in `parse_core_list` catches. Evaluated here:
the input tokenises to that one token, the guard accepts it, `int` fails
on it, and the loop aborts. The spec's totality intent makes this a slip
in the code (the guard should have been `isdecimal`). -/
theorem parse_raises_on_superscript :
    pyTokens (some supTwo) = [supTwo.data] ∧
    pyIsDigitFull (pyStrip supTwo.data) = true ∧
    strToInt? (pyStrip supTwo.data) = none ∧
    coreNumsU (pyTokens (some supTwo)) = none := by
  refine ⟨rfl, by decide, by decide, rfl⟩

/-- C8: '.' and ',' are equivalent separators: replacing every ',' by '.'
in the input leaves the parse unchanged; in particular
`"1,7,1,7,7,5,5,2"` and `"1.7.1.7.7.5.5.2"` parse identically. -/
theorem parse_separator_equivalence :
    (∀ s : String, parse_core_list (some (replaceCommaDot s)) = parse_core_list (some s)) ∧
    parse_core_list (some exListDots) = parse_core_list (some exList) := by
  constructor
  · intro s
    unfold parse_core_list
    have hcn : coreNums (some (replaceCommaDot s)) = coreNums (some s) := by
      unfold coreNums pyTokens
      congr 2
      show pyReplaceDotComma (textOrEmpty (some (replaceCommaDot s)))
        = pyReplaceDotComma (textOrEmpty (some s))
      unfold textOrEmpty replaceCommaDot pyReplaceDotComma
      show (s.data.map (fun c => if c = ',' then '.' else c)).map
          (fun c => if c = '.' then ',' else c)
        = s.data.map (fun c => if c = '.' then ',' else c)
      rw [List.map_map]
      apply List.map_congr_left
      intro c _
      by_cases h1 : c = ','
      · subst h1
        rfl
      · by_cases h2 : c = '.'
        · subst h2
          rfl
        · show (if ((if c = ',' then '.' else c) = '.') then ',' else
            (if c = ',' then '.' else c)) = if c = '.' then ',' else c
          rw [if_neg h1]
    rw [hcn]
  · rfl

end Nonagon
